import Mathlib

/-!
Shallow embedding of the Radial Stitcher core (src/cpp/RadialStitcher.cpp):
the blend-mask builder, the surface projectors, the feature-match trimming,
the RANSAC-style translation estimator, the compositor's per-pixel blend and
the transform accumulation of Stitch.  C++ doubles are modelled by exact
rationals, C ints by Int/Nat with explicit truncation where casts occur.
-/

namespace RadialStitcher

/-- Truncation toward zero: the semantics of a C++ double-to-int cast for
in-range finite values. -/
def truncQ (q : ℚ) : ℤ := if 0 ≤ q then ⌊q⌋ else -⌊-q⌋

/-- C round(): nearest integer, halfway cases rounded away from zero. -/
def roundQ (q : ℚ) : ℤ := if 0 ≤ q then ⌊q + 1 / 2⌋ else -⌊-q + 1 / 2⌋

/-- Per-pixel value computed by RadialStitcher::buildBlendMask for the mask
cell at row y, column x of an nRows x nCols mask: the C++ loop body
`distTop = abs(y+1); distBottom = abs(nRows-y-1); distLeft = abs(x+1);
distRight = abs(nCols-x-1); row[x] = min(xDist,yDist)/maxDist` with
`maxDist = (nRows > nCols ? nCols : nRows) / 2` (truncating int division). -/
def buildBlendMaskVal (nRows nCols : ℕ) (y x : ℕ) : ℚ :=
  let maxDist : ℕ := if nRows > nCols then nCols / 2 else nRows / 2
  let distTop : ℕ := ((y : ℤ) + 1).natAbs
  let distBottom : ℕ := ((nRows : ℤ) - (y : ℤ) - 1).natAbs
  let yDist : ℕ := min distTop distBottom
  let distLeft : ℕ := ((x : ℤ) + 1).natAbs
  let distRight : ℕ := ((nCols : ℤ) - (x : ℤ) - 1).natAbs
  let xDist : ℕ := min distLeft distRight
  ((min xDist yDist : ℕ) : ℚ) / ((maxDist : ℕ) : ℚ)

/-- Modelled from the spec's words for claim C5 (refinement comparison only):
`value = min(min(x+1, width-x), min(y+1, height-y)) / (min(width,height)/2)`
with truncating integer division for maxDist. -/
def specMaskValC5 (width height x y : ℕ) : ℚ :=
  ((min (min (x + 1) (width - x)) (min (y + 1) (height - y)) : ℕ) : ℚ) /
    ((min width height / 2 : ℕ) : ℚ)

/-- The code's 1-based min distance to an edge, as buildBlendMask computes it:
min(x+1, width-1-x, y+1, height-1-y). -/
def codeEdgeDist (width height x y : ℕ) : ℕ :=
  min (min (x + 1) (width - 1 - x)) (min (y + 1) (height - 1 - y))

/-- Closed form of the mask value actually produced by buildBlendMask. -/
def amendedMaskVal (width height x y : ℕ) : ℚ :=
  ((codeEdgeDist width height x y : ℕ) : ℚ) / ((min width height / 2 : ℕ) : ℚ)

/-- Source sample coordinates computed by the projectors:
`xIn = round(f*dirX/dirZ + xCenter)`, `yIn = round(f*dirY/dirZ + yCenter)`
for an inverse-mapping direction d = (dirX, dirY, dirZ). -/
def sampleCoords (f : ℚ) (xCenter yCenter : ℤ) (d : ℚ × ℚ × ℚ) : ℤ × ℤ :=
  (roundQ (f * d.1 / d.2.2 + xCenter), roundQ (f * d.2.1 / d.2.2 + yCenter))

/-- Destination-pixel write of the projector loops: the in-bounds test
`xIn > -1 && xIn < nCols && yIn > -1 && yIn < nRows` guards the copy of the
source pixel; otherwise the destination keeps its Mat::zeros value. -/
def projectPixel (nRows nCols : ℕ) (I : ℕ → ℕ → ℕ × ℕ × ℕ) (s : ℤ × ℤ) : ℕ × ℕ × ℕ :=
  if -1 < s.1 ∧ s.1 < (nCols : ℤ) ∧ -1 < s.2 ∧ s.2 < (nRows : ℤ) then
    I s.2.toNat s.1.toNat
  else (0, 0, 0)

/-- Inverse-mapping direction of projectSpherical at destination pixel (x,y):
theta = (x - xCenter)/f, phi = (y - yCenter)/f, direction
(sin theta * cos phi, sin phi, cos theta * cos phi); the trigonometric
functions are passed in as rational-valued parameters sinQ, cosQ. -/
def sphericalDir (sinQ cosQ : ℚ → ℚ) (f : ℚ) (xCenter yCenter : ℤ) (x y : ℕ) :
    ℚ × ℚ × ℚ :=
  let theta := ((x : ℚ) - (xCenter : ℚ)) / f
  let phi := ((y : ℚ) - (yCenter : ℚ)) / f
  (sinQ theta * cosQ phi, sinQ phi, cosQ theta * cosQ phi)

/-- Inverse-mapping direction of projectCylindrical at destination pixel
(x,y): theta = (x - xCenter)/f, h = (y - yCenter)/f, direction
(sin theta, h, cos theta). -/
def cylindricalDir (sinQ cosQ : ℚ → ℚ) (f : ℚ) (xCenter yCenter : ℤ) (x y : ℕ) :
    ℚ × ℚ × ℚ :=
  let theta := ((x : ℚ) - (xCenter : ℚ)) / f
  (sinQ theta, ((y : ℚ) - (yCenter : ℚ)) / f, cosQ theta)

/-- RadialStitcher::projectSpherical as a per-destination-pixel function:
centers are nCols/2 and nRows/2 (truncating int division), the output pixel
is the bounds-guarded copy of the inversely mapped source pixel. -/
def projectSpherical (sinQ cosQ : ℚ → ℚ) (f : ℚ) (nRows nCols : ℕ)
    (I : ℕ → ℕ → ℕ × ℕ × ℕ) (y x : ℕ) : ℕ × ℕ × ℕ :=
  projectPixel nRows nCols I
    (sampleCoords f ((nCols / 2 : ℕ) : ℤ) ((nRows / 2 : ℕ) : ℤ)
      (sphericalDir sinQ cosQ f ((nCols / 2 : ℕ) : ℤ) ((nRows / 2 : ℕ) : ℤ) x y))

/-- RadialStitcher::projectCylindrical as a per-destination-pixel function. -/
def projectCylindrical (sinQ cosQ : ℚ → ℚ) (f : ℚ) (nRows nCols : ℕ)
    (I : ℕ → ℕ → ℕ × ℕ × ℕ) (y x : ℕ) : ℕ × ℕ × ℕ :=
  projectPixel nRows nCols I
    (sampleCoords f ((nCols / 2 : ℕ) : ℤ) ((nRows / 2 : ℕ) : ℤ)
      (cylindricalDir sinQ cosQ f ((nCols / 2 : ℕ) : ℤ) ((nRows / 2 : ℕ) : ℤ) x y))

/-- A 2-D keypoint location (the pt field of a cv::KeyPoint), with exact
rational coordinates in place of floats. -/
structure Pt where
  x : ℚ
  y : ℚ
deriving DecidableEq

/-- A cv::DMatch: indices into the two keypoint vectors plus the descriptor
distance score. -/
structure DMatch where
  queryIdx : ℕ
  trainIdx : ℕ
  distance : ℚ
deriving DecidableEq

/-- Minimum-distance fold of getFeatures: `double minDist = 100;` then
`if (dist < minDist) minDist = dist;` over every candidate match. -/
def minDistFold (ds : List ℚ) : ℚ :=
  ds.foldl (fun m d => if d < m then d else m) 100

/-- Match trimming of RadialStitcher::getFeatures: keep the candidate
matches whose distance is strictly below 3 * minDist, where minDist is the
result of the fold above (initialized at 100). -/
def goodMatches (ms : List DMatch) : List DMatch :=
  ms.filter (fun a => a.distance < 3 * minDistFold (ms.map (fun b => b.distance)))

/-- Modelled from the spec's words for claim C9 (refinement comparison only):
retain exactly the matches with distance < 3 * minDistance where minDistance
is the minimum distance over all candidate matches. -/
def specGoodMatches (ms : List DMatch) : List DMatch :=
  let ds := ms.map (fun b => b.distance)
  let minDistance := ds.foldl min (ds.headD 0)
  ms.filter (fun a => a.distance < 3 * minDistance)

/-- Per-match translation estimate used by estimateHomography:
(xCur - xNew, yCur - yNew) with xNew = keypoints1[m.queryIdx].pt.x and
xCur = keypoints2[m.trainIdx].pt.x (and likewise for y). -/
def estPair (kp1 kp2 : ℕ → Pt) (m : DMatch) : ℚ × ℚ :=
  ((kp2 m.trainIdx).x - (kp1 m.queryIdx).x, (kp2 m.trainIdx).y - (kp1 m.queryIdx).y)

/-- One step of the inner j-loop of estimateHomography, acting on the state
(xQual, yQual, concensus): the quality flags are only ever set (never reset
inside the loop), and concensus increments whenever both flags are set. -/
def trialStep (hyp : ℚ × ℚ) (st : Bool × Bool × ℕ) (e : ℚ × ℚ) : Bool × Bool × ℕ :=
  let xQ := if |hyp.1 - e.1| < 3 then true else st.1
  let yQ := if |hyp.2 - e.2| < 3 then true else st.2.1
  (xQ, yQ, if xQ && yQ then st.2.2 + 1 else st.2.2)

/-- The concensus value computed by one trial of estimateHomography with
hypothesis match index fn and hypothesis translation hyp: the j-loop runs
over all match indices except fn, with xQual = yQual = 0 and concensus = 0
initialized once before the loop. -/
def trialConsensus (kp1 kp2 : ℕ → Pt) (ms : List DMatch) (fn : ℕ) (hyp : ℚ × ℚ) : ℕ :=
  ((((List.range ms.length).filter (fun j => j ≠ fn)).map
      (fun j => estPair kp1 kp2 (ms.getD j ⟨0, 0, 0⟩))).foldl
    (trialStep hyp) (false, false, 0)).2.2

/-- Modelled from the spec's words for claim C1 (refinement comparison only):
the number of matches j other than the hypothesis match whose own estimate is
within tolerance 3.0 of the hypothesis on BOTH axes. -/
def specConsensus (kp1 kp2 : ℕ → Pt) (ms : List DMatch) (fn : ℕ) (hyp : ℚ × ℚ) : ℕ :=
  ((List.range ms.length).filter (fun j =>
    decide (j ≠ fn ∧ |hyp.1 - (estPair kp1 kp2 (ms.getD j ⟨0, 0, 0⟩)).1| < 3 ∧
      |hyp.2 - (estPair kp1 kp2 (ms.getD j ⟨0, 0, 0⟩)).2| < 3))).length

/-- Loop state of the RANSAC-style search: xTrans/yTrans hold the hypothesis
translation of the most recent trial (C++ doubles), maxConcensus the best
consistent count so far, and bestX/bestY the best translation, stored in C++
int variables (hence truncated toward zero). -/
structure BestState where
  xTrans : ℚ
  yTrans : ℚ
  maxConcensus : ℕ
  bestX : ℤ
  bestY : ℤ
deriving DecidableEq

/-- One trial of estimateHomography for selected match index fn: compute the
hypothesis translation, count the concensus, and update the best-so-far state
only on a strictly larger concensus (earlier trial wins ties). -/
def trialOnce (kp1 kp2 : ℕ → Pt) (ms : List DMatch) (st : BestState) (fn : ℕ) :
    BestState :=
  let hyp := estPair kp1 kp2 (ms.getD fn ⟨0, 0, 0⟩)
  let c := trialConsensus kp1 kp2 ms fn hyp
  if c > st.maxConcensus then
    ⟨hyp.1, hyp.2, c, truncQ hyp.1, truncQ hyp.2⟩
  else
    ⟨hyp.1, hyp.2, st.maxConcensus, st.bestX, st.bestY⟩

/-- The trial loop of estimateHomography, threading the C library's hidden
rand() state: each iteration draws `rand() % nMatches` for the hypothesis
match and runs one trial.  The generator is a parameter next mapping the
hidden state to (returned value, new state). -/
def ransacLoop (next : ℕ → ℕ × ℕ) (kp1 kp2 : ℕ → Pt) (ms : List DMatch) :
    ℕ → ℕ × BestState → ℕ × BestState
  | 0, s => s
  | k + 1, s =>
      ransacLoop next kp1 kp2 ms k
        ((next s.1).2, trialOnce kp1 kp2 ms s.2 ((next s.1).1 % ms.length))

/-- C srand(seed): the hidden rand() state is reset from the seed alone; the
previous state sigma is discarded. -/
def srandSet (seed : ℕ) (_sigma : ℕ) : ℕ := seed

/-- Initial loop state: xTrans = yTrans = 0, maxConcensus = 0, bestX = bestY = 0. -/
def initBest : BestState := ⟨0, 0, 0, 0, 0⟩

/-- Result of estimateHomography: the translation written into the
homography's column (bestX, bestY) plus the C return code. -/
structure EstResult where
  tx : ℤ
  ty : ℤ
  ret : ℤ
deriving DecidableEq

/-- RadialStitcher::estimateHomography: srand(0), then nMatches trials of the
RANSAC-style search, then the exact-zero fallback `if (bestX == 0) bestX =
xTrans; if (bestY == 0) bestY = yTrans;` (int assignment, truncating), and
return code 0.  sigma is the hidden rand() state at call time. -/
def estimateHomography (next : ℕ → ℕ × ℕ) (kp1 kp2 : ℕ → Pt) (ms : List DMatch)
    (sigma : ℕ) : EstResult :=
  let fin := (ransacLoop next kp1 kp2 ms ms.length (srandSet 0 sigma, initBest)).2
  ⟨if fin.bestX = 0 then truncQ fin.xTrans else fin.bestX,
   if fin.bestY = 0 then truncQ fin.yTrans else fin.bestY, 0⟩

/-- The loop state after all nMatches trials of estimateHomography (the rand
state always starts at 0 because of srand(0)). -/
def ransacFinal (next : ℕ → ℕ × ℕ) (kp1 kp2 : ℕ → Pt) (ms : List DMatch) :
    BestState :=
  (ransacLoop next kp1 kp2 ms ms.length (0, initBest)).2

/-- The first k values produced by rand() starting from hidden state s. -/
def randList (next : ℕ → ℕ × ℕ) (s : ℕ) : ℕ → List ℕ
  | 0 => []
  | k + 1 => (next s).1 :: randList next (next s).2 k

/-- The sequence of hypothesis match indices selected by a call of
estimateHomography whose incoming hidden rand state is sigma. -/
def hypSelections (next : ℕ → ℕ × ℕ) (ms : List DMatch) (sigma : ℕ) : List ℕ :=
  (randList next (srandSet 0 sigma) ms.length).map (fun r => r % ms.length)

/-- The hypothesis translation computed in the last trial of
estimateHomography (meaningful when at least one trial runs). -/
def lastHypothesis (next : ℕ → ℕ × ℕ) (kp1 kp2 : ℕ → Pt) (ms : List DMatch) :
    ℚ × ℚ :=
  estPair kp1 kp2
    (ms.getD (((randList next 0 ms.length).map (fun r => r % ms.length)).getLastD 0)
      ⟨0, 0, 0⟩)

/-- A 3-channel 8-bit pixel (B, G, R), channel values as naturals. -/
structure Px where
  c0 : ℕ
  c1 : ℕ
  c2 : ℕ
deriving DecidableEq

/-- Per-pixel body of RadialStitcher::blend: if both channel-0 sentinels are
nonzero, feather with weights aN (new mask) and aC (canvas mask); else if the
canvas sentinel is not positive, copy the new pixel; else keep the canvas
pixel.  The computed rational channel values are returned before the uchar
store (the C++ code divides by aN + aC with no guard; in IEEE arithmetic
aN + aC = 0 yields 0/0 = NaN, in this exact model division by zero yields 0 -
under neither semantics is the canvas value retained). -/
def blendPixel (can new : Px) (aC aN : ℚ) : ℚ × ℚ × ℚ :=
  if can.c0 ≠ 0 ∧ new.c0 ≠ 0 then
    ((aN * new.c0 + aC * can.c0) / (aN + aC),
     (aN * new.c1 + aC * can.c1) / (aN + aC),
     (aN * new.c2 + aC * can.c2) / (aN + aC))
  else if ¬(can.c0 > 0) then
    ((new.c0 : ℚ), (new.c1 : ℚ), (new.c2 : ℚ))
  else
    ((can.c0 : ℚ), (can.c1 : ℚ), (can.c2 : ℚ))

/-- Centering translation pushed as transforms[0] by RadialStitcher::Stitch:
xCenter = 0 and yCenter = -first.rows/2 + out.rows/2 with truncating int
division on the nonnegative row counts. -/
def centerOffset (canvasRows frameRows : ℕ) : ℤ × ℤ :=
  (0, ((canvasRows / 2 : ℕ) : ℤ) - ((frameRows / 2 : ℕ) : ℤ))

/-- Translation columns of the transforms list built by
RadialStitcher::Stitch: transforms[0] = t0 and, for each pairwise translation
p of frame i relative to frame i-1, transforms[i] = transforms[i-1] + p
(componentwise, the rest of the 3x3 matrix stays the identity). -/
def stitchTransforms : ℤ × ℤ → List (ℤ × ℤ) → List (ℤ × ℤ)
  | t0, [] => [t0]
  | t0, p :: ps => t0 :: stitchTransforms (t0.1 + p.1, t0.2 + p.2) ps

end RadialStitcher

namespace RadialStitcher

theorem maskVal_eq (width height x y : ℕ) (hx : x < width) (hy : y < height) :
    buildBlendMaskVal height width y x = amendedMaskVal width height x y := by
  unfold buildBlendMaskVal amendedMaskVal codeEdgeDist
  have h1 : ((y : ℤ) + 1).natAbs = y + 1 := by omega
  have h2 : ((height : ℤ) - (y : ℤ) - 1).natAbs = height - 1 - y := by omega
  have h3 : ((x : ℤ) + 1).natAbs = x + 1 := by omega
  have h4 : ((width : ℤ) - (x : ℤ) - 1).natAbs = width - 1 - x := by omega
  rw [h1, h2, h3, h4]
  have h5 : (if height > width then width / 2 else height / 2) = min width height / 2 := by
    rw [Nat.min_def]
    split <;> split <;> omega
  rw [h5]

theorem roundQ_bounds (q : ℚ) : q - 1 / 2 ≤ (roundQ q : ℚ) ∧ (roundQ q : ℚ) ≤ q + 1 / 2 := by
  unfold roundQ
  split
  · constructor
    · have := Int.lt_floor_add_one (q + 1 / 2)
      push_cast at this ⊢
      linarith
    · have := Int.floor_le (q + 1 / 2)
      push_cast at this ⊢
      linarith
  · constructor
    · have := Int.floor_le (-q + 1 / 2)
      push_cast at this ⊢
      linarith
    · have := Int.lt_floor_add_one (-q + 1 / 2)
      push_cast at this ⊢
      linarith

theorem roundQ_out_of_range (n : ℕ) (q : ℚ) (h : (n : ℚ) + 1 ≤ |q|) :
    ¬(-1 < roundQ q ∧ roundQ q < (n : ℤ)) := by
  rcases abs_cases q with ⟨he, _⟩ | ⟨he, _⟩
  · intro hc
    have h1 : ((n : ℚ)) + 1 ≤ q := by rw [← he]; exact h
    have h2 := (roundQ_bounds q).1
    have h3 : ((n : ℤ) : ℚ) < (roundQ q : ℚ) := by push_cast; linarith
    have h4 : (n : ℤ) < roundQ q := by exact_mod_cast h3
    omega
  · intro hc
    have h1 : ((n : ℚ)) + 1 ≤ -q := by rw [← he]; exact h
    have h2 := (roundQ_bounds q).2
    have h3 : (roundQ q : ℚ) < 0 := by
      have := Nat.cast_nonneg (α := ℚ) n
      linarith
    have h4 : roundQ q < 0 := by exact_mod_cast h3
    omega

theorem sample_out_of_bounds (nRows nCols : ℕ) (xc yc : ℤ) (f xp yp zp : ℚ)
    (I : ℕ → ℕ → ℕ × ℕ × ℕ)
    (hnorm : 1 ≤ xp ^ 2 + yp ^ 2 + zp ^ 2)
    (hz0 : 0 < |zp|) (hzhalf : |zp| ≤ 1 / 2)
    (hf : 2 * (((max nRows nCols : ℕ) : ℚ) + |(xc : ℚ)| + |(yc : ℚ)| + 1) * |zp| ≤ f) :
    projectPixel nRows nCols I (sampleCoords f xc yc (xp, yp, zp)) = (0, 0, 0) := by
  set K : ℚ := ((max nRows nCols : ℕ) : ℚ) + |(xc : ℚ)| + |(yc : ℚ)| + 1 with hK
  have hK1 : (1 : ℚ) ≤ K := by
    have := abs_nonneg ((xc : ℚ))
    have := abs_nonneg ((yc : ℚ))
    have := Nat.cast_nonneg (α := ℚ) (max nRows nCols)
    rw [hK]; linarith
  have hfpos : 0 < f := by nlinarith
  have hzp2 : zp ^ 2 ≤ 1 / 4 := by nlinarith [abs_nonneg zp, sq_abs zp]
  have hxy : 1 / 2 ≤ |xp| ∨ 1 / 2 ≤ |yp| := by
    rcases le_or_lt (1 / 2) |xp| with h | h
    · exact Or.inl h
    · right
      nlinarith [sq_abs xp, sq_abs yp, abs_nonneg xp, abs_nonneg yp,
        sq_nonneg (|yp| - 1 / 2), sq_nonneg (|xp| - 1 / 2)]
  have key : ∀ w : ℚ, 1 / 2 ≤ |w| → K ≤ |f * w / zp| := by
    intro w hw
    rw [abs_div, abs_mul, abs_of_pos hfpos]
    rw [le_div_iff₀ hz0]
    nlinarith
  rcases hxy with hx | hy
  · have h1 : (nCols : ℚ) + 1 ≤ |f * xp / zp + (xc : ℚ)| := by
      have h2 := key xp hx
      have h3 : |f * xp / zp| ≤ |f * xp / zp + (xc : ℚ)| + |(xc : ℚ)| := by
        calc |f * xp / zp| = |(f * xp / zp + (xc : ℚ)) + (-(xc : ℚ))| := by ring_nf
          _ ≤ |f * xp / zp + (xc : ℚ)| + |(-(xc : ℚ))| := abs_add _ _
          _ = |f * xp / zp + (xc : ℚ)| + |(xc : ℚ)| := by rw [abs_neg]
      have h4 : ((max nRows nCols : ℕ) : ℚ) ≥ (nCols : ℚ) := by
        exact_mod_cast Nat.le_max_right nRows nCols
      have h5 := abs_nonneg ((yc : ℚ))
      rw [hK] at h2
      linarith
    have hguard := roundQ_out_of_range nCols (f * xp / zp + (xc : ℚ)) h1
    unfold projectPixel sampleCoords
    rw [if_neg]
    intro hcon
    exact hguard ⟨hcon.1, hcon.2.1⟩
  · have h1 : (nRows : ℚ) + 1 ≤ |f * yp / zp + (yc : ℚ)| := by
      have h2 := key yp hy
      have h3 : |f * yp / zp| ≤ |f * yp / zp + (yc : ℚ)| + |(yc : ℚ)| := by
        calc |f * yp / zp| = |(f * yp / zp + (yc : ℚ)) + (-(yc : ℚ))| := by ring_nf
          _ ≤ |f * yp / zp + (yc : ℚ)| + |(-(yc : ℚ))| := abs_add _ _
          _ = |f * yp / zp + (yc : ℚ)| + |(yc : ℚ)| := by rw [abs_neg]
      have h4 : ((max nRows nCols : ℕ) : ℚ) ≥ (nRows : ℚ) := by
        exact_mod_cast Nat.le_max_left nRows nCols
      have h5 := abs_nonneg ((xc : ℚ))
      rw [hK] at h2
      linarith
    have hguard := roundQ_out_of_range nRows (f * yp / zp + (yc : ℚ)) h1
    unfold projectPixel sampleCoords
    rw [if_neg]
    intro hcon
    exact hguard ⟨hcon.2.2.1, hcon.2.2.2⟩

theorem ransacLoop_snd (next : ℕ → ℕ × ℕ) (kp1 kp2 : ℕ → Pt) (ms : List DMatch) :
    ∀ (k s : ℕ) (st : BestState),
      (ransacLoop next kp1 kp2 ms k (s, st)).2 =
        ((randList next s k).map (fun r => r % ms.length)).foldl
          (trialOnce kp1 kp2 ms) st := by
  intro k
  induction k with
  | zero => intro s st; rfl
  | succ k ih =>
      intro s st
      simp only [ransacLoop, randList, List.map_cons, List.foldl_cons]
      exact ih (next s).2 (trialOnce kp1 kp2 ms st ((next s).1 % ms.length))

theorem randList_length (next : ℕ → ℕ × ℕ) :
    ∀ (k s : ℕ), (randList next s k).length = k := by
  intro k
  induction k with
  | zero => intro s; rfl
  | succ k ih => intro s; simp only [randList, List.length_cons, ih]

theorem trialOnce_trans (kp1 kp2 : ℕ → Pt) (ms : List DMatch) (st : BestState)
    (fn : ℕ) :
    (trialOnce kp1 kp2 ms st fn).xTrans = (estPair kp1 kp2 (ms.getD fn ⟨0, 0, 0⟩)).1 ∧
    (trialOnce kp1 kp2 ms st fn).yTrans = (estPair kp1 kp2 (ms.getD fn ⟨0, 0, 0⟩)).2 := by
  simp only [trialOnce]
  split <;> exact ⟨rfl, rfl⟩

theorem getLastD_irrel {t : List ℕ} (h : t ≠ []) (a b : ℕ) :
    t.getLastD a = t.getLastD b := by
  cases t with
  | nil => exact absurd rfl h
  | cons c cs => rw [List.getLastD_cons, List.getLastD_cons]

theorem foldl_lastHyp (kp1 kp2 : ℕ → Pt) (ms : List DMatch) :
    ∀ (l : List ℕ) (st : BestState), l ≠ [] →
      (l.foldl (trialOnce kp1 kp2 ms) st).xTrans =
          (estPair kp1 kp2 (ms.getD (l.getLastD 0) ⟨0, 0, 0⟩)).1 ∧
      (l.foldl (trialOnce kp1 kp2 ms) st).yTrans =
          (estPair kp1 kp2 (ms.getD (l.getLastD 0) ⟨0, 0, 0⟩)).2 := by
  intro l
  induction l with
  | nil => intro st h; exact absurd rfl h
  | cons a t ih =>
      intro st _
      rcases eq_or_ne t [] with ht | ht
      · subst ht
        simp only [List.foldl_cons, List.foldl_nil, List.getLastD_cons,
          List.getLastD_nil]
        exact trialOnce_trans kp1 kp2 ms st a
      · have hlast : (a :: t).getLastD 0 = t.getLastD 0 := by
          rw [List.getLastD_cons]
          exact getLastD_irrel ht a 0
        rw [hlast, List.foldl_cons]
        exact ih (trialOnce kp1 kp2 ms st a) ht

theorem minDistFold_eq (ds : List ℚ) : minDistFold ds = ds.foldl min 100 := by
  unfold minDistFold
  congr 1
  funext m d
  by_cases h : d < m
  · rw [if_pos h, min_def, if_neg (not_le.mpr h)]
  · rw [if_neg h, min_def, if_pos (le_of_not_lt h)]

/-- Claim C1 (code_bug): on a trial of estimateHomography with hypothesis
match 0 and hypothesis translation (0,0), the second other match's estimate
(100,100) is outside the 3.0-pixel tolerance on BOTH axes, yet the code's
concensus is 2, because xQual/yQual were latched by the first other match
and are never reset inside the j-loop; the number of other matches within
tolerance on both axes (what the claim states the count equals) is 1. -/
theorem estimateHomography_sticky_quality_flags :
    estPair (fun i => if i = 1 then ⟨5, 5⟩ else ⟨0, 0⟩)
        (fun i => if i = 1 then ⟨5, 5⟩ else if i = 2 then ⟨100, 100⟩ else ⟨0, 0⟩)
        (([⟨0, 0, 0⟩, ⟨1, 1, 0⟩, ⟨2, 2, 0⟩] : List DMatch).getD 0 ⟨0, 0, 0⟩) = (0, 0) ∧
    trialConsensus (fun i => if i = 1 then ⟨5, 5⟩ else ⟨0, 0⟩)
        (fun i => if i = 1 then ⟨5, 5⟩ else if i = 2 then ⟨100, 100⟩ else ⟨0, 0⟩)
        [⟨0, 0, 0⟩, ⟨1, 1, 0⟩, ⟨2, 2, 0⟩] 0 (0, 0) = 2 ∧
    specConsensus (fun i => if i = 1 then ⟨5, 5⟩ else ⟨0, 0⟩)
        (fun i => if i = 1 then ⟨5, 5⟩ else if i = 2 then ⟨100, 100⟩ else ⟨0, 0⟩)
        [⟨0, 0, 0⟩, ⟨1, 1, 0⟩, ⟨2, 2, 0⟩] 0 (0, 0) = 1 := by
  refine ⟨?_, ?_, ?_⟩
  · norm_num [estPair]
  · norm_num [trialConsensus, trialStep, estPair, List.range_succ]
  · norm_num [specConsensus, estPair, List.range_succ]

/-- Claim C2 (counterexample): called with zero matches, estimateHomography
runs zero trials and returns the success code 0 - the same return value as
every successful call - together with translation (0,0); no distinct
insufficient-correspondences error is surfaced. -/
theorem estimateHomography_empty_matches_returns_success :
    estimateHomography (fun s => (s, s + 1)) (fun _ => ⟨0, 0⟩) (fun _ => ⟨0, 0⟩)
      [] 0 = ⟨0, 0, 0⟩ := by
  norm_num [estimateHomography, ransacLoop, srandSet, initBest, truncQ]

/-- Claim C2 (amended): estimateHomography always returns the success code 0,
and with zero matches it returns success with translation (0,0), so a caller
cannot distinguish N = 0 from a genuine zero translation. -/
theorem estimateHomography_no_insufficient_error (next : ℕ → ℕ × ℕ)
    (kp1 kp2 : ℕ → Pt) (ms : List DMatch) (sigma : ℕ) :
    (estimateHomography next kp1 kp2 ms sigma).ret = 0 ∧
    estimateHomography next kp1 kp2 [] sigma = ⟨0, 0, 0⟩ :=
  ⟨rfl, by norm_num [estimateHomography, ransacLoop, srandSet, initBest, truncQ]⟩

/-- Claim C3 (code_bug): in the feather branch of blend, with both channel-0
sentinels nonzero (canvas 100, new 50) and both mask values 0, the code
evaluates (aN*new + aC*can)/(aN + aC) with aN + aC = 0 - a division by zero
(0/0, NaN under IEEE; 0 in this exact model) - so the existing canvas value
100 is NOT retained. -/
theorem blend_zero_alpha_sum_not_retained :
    blendPixel ⟨100, 100, 100⟩ ⟨50, 50, 50⟩ 0 0 = (0, 0, 0) ∧
    (blendPixel ⟨100, 100, 100⟩ ⟨50, 50, 50⟩ 0 0).1 ≠ (100 : ℚ) := by
  norm_num [blendPixel]

/-- Claim C5 (counterexample): for a 4x4 mask at pixel (x,y) = (3,1) the code
writes 0 (its right-edge distance is width-x-1 = 0), while the claimed
formula with right = width-x and bottom = height-y yields 1/2. -/
theorem buildBlendMask_spec_formula_false :
    buildBlendMaskVal 4 4 1 3 = 0 ∧ specMaskValC5 4 4 3 1 = 1 / 2 ∧
    buildBlendMaskVal 4 4 1 3 ≠ specMaskValC5 4 4 3 1 := by
  norm_num [buildBlendMaskVal, specMaskValC5]

/-- Claim C5 (amended): for every pixel (x,y) of a width x height mask the
value written equals min(min(x+1, width-1-x), min(y+1, height-1-y)) divided
by min(width,height)/2, with truncating integer division for maxDist; the
right and bottom distances are width-x-1 and height-y-1, not width-x and
height-y. -/
theorem buildBlendMask_value_formula (width height x y : ℕ)
    (hx : x < width) (hy : y < height) :
    buildBlendMaskVal height width y x = amendedMaskVal width height x y :=
  maskVal_eq width height x y hx hy

theorem buildBlendMask_value_formula_witness :
    (2 : ℕ) < 4 ∧ (1 : ℕ) < 4 ∧ buildBlendMaskVal 4 4 1 2 = amendedMaskVal 4 4 2 1 :=
  ⟨by decide, by decide, buildBlendMask_value_formula 4 4 2 1 (by decide) (by decide)⟩

/-- Claim C6 (counterexample): in a 4x4 mask the border pixel (x,y) = (0,2)
(left border, x = 0) has value 1/2, not 0 as the claim states for every
border pixel. -/
theorem buildBlendMask_border_nonzero :
    buildBlendMaskVal 4 4 2 0 = 1 / 2 ∧ buildBlendMaskVal 4 4 2 0 ≠ 0 := by
  norm_num [buildBlendMaskVal]

/-- Claim C6 (amended): the mask value is exactly 0 at every pixel on the
right (x = width-1) or bottom (y = height-1) border - but not in general on
the left or top border - and the value is non-increasing as the code's
1-based edge distance min(x+1, width-1-x, y+1, height-1-y) decreases. -/
theorem buildBlendMask_border_and_monotone :
    (∀ width height x y : ℕ, x < width → y < height →
      (x = width - 1 ∨ y = height - 1) → buildBlendMaskVal height width y x = 0) ∧
    (∀ width height x1 y1 x2 y2 : ℕ, x1 < width → y1 < height → x2 < width →
      y2 < height → codeEdgeDist width height x1 y1 ≤ codeEdgeDist width height x2 y2 →
      buildBlendMaskVal height width y1 x1 ≤ buildBlendMaskVal height width y2 x2) := by
  constructor
  · intro W H x y hx hy hb
    rw [maskVal_eq W H x y hx hy]
    unfold amendedMaskVal codeEdgeDist
    have hz : min (min (x + 1) (W - 1 - x)) (min (y + 1) (H - 1 - y)) = 0 := by omega
    rw [hz]
    simp
  · intro W H x1 y1 x2 y2 hx1 hy1 hx2 hy2 hle
    rw [maskVal_eq W H x1 y1 hx1 hy1, maskVal_eq W H x2 y2 hx2 hy2]
    unfold amendedMaskVal
    have hnum : ((codeEdgeDist W H x1 y1 : ℕ) : ℚ) ≤ ((codeEdgeDist W H x2 y2 : ℕ) : ℚ) := by
      exact_mod_cast hle
    rcases eq_or_lt_of_le (Nat.cast_nonneg (α := ℚ) (min W H / 2)) with hm | hm
    · rw [← hm]
      simp
    · exact div_le_div_of_nonneg_right hnum hm.le |>.trans_eq rfl

theorem buildBlendMask_border_and_monotone_witness :
    ((3 : ℕ) = 4 - 1 ∨ (1 : ℕ) = 4 - 1) ∧ buildBlendMaskVal 4 4 1 3 = 0 ∧
    buildBlendMaskVal 4 4 2 0 ≤ buildBlendMaskVal 4 4 1 1 :=
  ⟨Or.inl rfl,
   buildBlendMask_border_and_monotone.1 4 4 3 1 (by decide) (by decide) (Or.inl rfl),
   buildBlendMask_border_and_monotone.2 4 4 0 2 1 1 (by decide) (by decide) (by decide)
     (by decide) (by decide)⟩

/-- Claim C9 (counterexample): with candidate distances 150 and 400 the code
keeps only the 150 match (its minDist variable starts at 100, so the
threshold is 3*100 = 300), while the claimed rule - minDistance the minimum
over all candidate matches, here 150, threshold 450 - retains both. -/
theorem goodMatches_min_cap_counterexample :
    goodMatches [⟨0, 0, 150⟩, ⟨1, 1, 400⟩] = [⟨0, 0, 150⟩] ∧
    specGoodMatches [⟨0, 0, 150⟩, ⟨1, 1, 400⟩] = [⟨0, 0, 150⟩, ⟨1, 1, 400⟩] ∧
    goodMatches [⟨0, 0, 150⟩, ⟨1, 1, 400⟩] ≠ specGoodMatches [⟨0, 0, 150⟩, ⟨1, 1, 400⟩] := by
  refine ⟨?_, ?_, ?_⟩ <;>
    norm_num [goodMatches, specGoodMatches, minDistFold, DMatch.mk.injEq]

/-- Claim C9 (amended): the retained set is exactly the candidate matches
whose distance is strictly less than 3 * minDistance, where minDistance is
the minimum distance over all candidate matches CAPPED AT 100 (the fold over
distances starts from the initializer 100). -/
theorem goodMatches_capped_min_filter (ms : List DMatch) :
    goodMatches ms =
      ms.filter (fun a =>
        a.distance < 3 * ((ms.map (fun b => b.distance)).foldl min 100)) := by
  unfold goodMatches
  rw [minDistFold_eq]

/-- Claim C7 (counterexample): with the single match whose keypoints give a
hypothesis translation of (1/2, 0), the search ends with bestX = 0 (zero
concensus ever recorded), so the claim's fallback applies; the code then
returns x-translation 0 - the int truncation of 1/2 - not the last trial's
hypothesis x component 1/2 itself. -/
theorem estimateHomography_fallback_truncates :
    (ransacFinal (fun s => (s, s + 1)) (fun _ => ⟨0, 0⟩) (fun _ => ⟨1 / 2, 0⟩)
      [⟨0, 0, 0⟩]).bestX = 0 ∧
    (lastHypothesis (fun s => (s, s + 1)) (fun _ => ⟨0, 0⟩) (fun _ => ⟨1 / 2, 0⟩)
      [⟨0, 0, 0⟩]).1 = 1 / 2 ∧
    (((estimateHomography (fun s => (s, s + 1)) (fun _ => ⟨0, 0⟩)
        (fun _ => ⟨1 / 2, 0⟩) [⟨0, 0, 0⟩] 0).tx : ℚ) ≠
      (lastHypothesis (fun s => (s, s + 1)) (fun _ => ⟨0, 0⟩) (fun _ => ⟨1 / 2, 0⟩)
        [⟨0, 0, 0⟩]).1) := by
  refine ⟨?_, ?_, ?_⟩
  · norm_num [ransacFinal, ransacLoop, initBest, trialOnce, trialConsensus,
      trialStep, estPair, List.range_succ, truncQ]
  · norm_num [lastHypothesis, randList, estPair]
  · norm_num [estimateHomography, ransacLoop, srandSet, initBest, trialOnce,
      trialConsensus, trialStep, estPair, List.range_succ, truncQ,
      lastHypothesis, randList]

/-- Claim C7 (amended): after the search, an axis whose best translation is
exactly 0 is replaced by the truncation toward zero (the C++ int assignment)
of that axis of the hypothesis translation computed in the last trial; an
axis with nonzero best translation is returned unchanged (it was itself
stored through the same int truncation when its trial won). -/
theorem estimateHomography_fallback_policy (next : ℕ → ℕ × ℕ) (kp1 kp2 : ℕ → Pt)
    (ms : List DMatch) (sigma : ℕ) (h : ms ≠ []) :
    estimateHomography next kp1 kp2 ms sigma =
      ⟨if (ransacFinal next kp1 kp2 ms).bestX = 0
          then truncQ (lastHypothesis next kp1 kp2 ms).1
          else (ransacFinal next kp1 kp2 ms).bestX,
       if (ransacFinal next kp1 kp2 ms).bestY = 0
          then truncQ (lastHypothesis next kp1 kp2 ms).2
          else (ransacFinal next kp1 kp2 ms).bestY, 0⟩ := by
  unfold estimateHomography ransacFinal lastHypothesis srandSet
  rw [ransacLoop_snd next kp1 kp2 ms ms.length 0 initBest]
  have hlne : ((randList next 0 ms.length).map (fun r => r % ms.length)) ≠ [] := by
    intro hcon
    have hlen := congrArg List.length hcon
    rw [List.length_map, randList_length] at hlen
    exact h (List.length_eq_zero.mp hlen)
  have hxy := foldl_lastHyp kp1 kp2 ms
    ((randList next 0 ms.length).map (fun r => r % ms.length)) initBest hlne
  dsimp only
  rw [hxy.1, hxy.2]

theorem estimateHomography_fallback_policy_witness :
    ([⟨0, 0, 5⟩] : List DMatch) ≠ [] ∧
    estimateHomography (fun s => (s, s + 1)) (fun _ => ⟨0, 0⟩) (fun _ => ⟨7, 0⟩)
        [⟨0, 0, 5⟩] 3 = ⟨7, 0, 0⟩ :=
  ⟨by simp,
   (estimateHomography_fallback_policy (fun s => (s, s + 1)) (fun _ => ⟨0, 0⟩)
      (fun _ => ⟨7, 0⟩) [⟨0, 0, 5⟩] 3 (by simp)).trans
    (by norm_num [ransacFinal, ransacLoop, initBest, trialOnce, trialConsensus,
      trialStep, estPair, List.range_succ, truncQ, lastHypothesis, randList])⟩

/-- Claim C10 (confirmed): estimateHomography re-seeds the generator with
srand(0) on entry, so the hidden rand state sigma at call time is discarded:
two calls with identical matches and keypoint lists select the same sequence
of hypothesis matches and return the identical translation. -/
theorem estimateHomography_deterministic (next : ℕ → ℕ × ℕ) (kp1 kp2 : ℕ → Pt)
    (ms : List DMatch) (s1 s2 : ℕ) :
    hypSelections next ms s1 = hypSelections next ms s2 ∧
    estimateHomography next kp1 kp2 ms s1 = estimateHomography next kp1 kp2 ms s2 :=
  ⟨rfl, rfl⟩

theorem stitchTransforms_head (t0 : ℤ × ℤ) (ps : List (ℤ × ℤ)) :
    (stitchTransforms t0 ps).getD 0 (0, 0) = t0 := by
  cases ps <;> rfl

theorem stitchTransforms_step (ps : List (ℤ × ℤ)) :
    ∀ (t0 : ℤ × ℤ) (i : ℕ), i < ps.length →
      (stitchTransforms t0 ps).getD (i + 1) (0, 0) =
        (((stitchTransforms t0 ps).getD i (0, 0)).1 + (ps.getD i (0, 0)).1,
         ((stitchTransforms t0 ps).getD i (0, 0)).2 + (ps.getD i (0, 0)).2) := by
  induction ps with
  | nil => intro t0 i h; simp at h
  | cons p ps ih =>
      intro t0 i h
      cases i with
      | zero =>
          simp only [stitchTransforms, List.getD_cons_succ, List.getD_cons_zero]
          rw [stitchTransforms_head]
      | succ i =>
          have h' : i < ps.length := by simpa using h
          simp only [stitchTransforms, List.getD_cons_succ]
          exact ih (t0.1 + p.1, t0.2 + p.2) i h'

/-- Claim C8 (confirmed): transforms[0] built by Stitch is the centering
offset (0, canvasRows/2 - frameRows/2) (truncating integer division, matching
`-first.rows/2 + out.rows/2`), every later transform adds the pairwise
translation of frame i against frame i-1 onto transforms[i-1], and for a
4-image chain with pairwise translations (10,0), (8,0), (12,0) the transform
of image 3 is the frame-0 offset plus (30, 0). -/
theorem stitch_transform_accumulation :
    (∀ (canvasRows frameRows : ℕ) (ps : List (ℤ × ℤ)),
      (stitchTransforms (centerOffset canvasRows frameRows) ps).getD 0 (0, 0) =
        (0, ((canvasRows / 2 : ℕ) : ℤ) - ((frameRows / 2 : ℕ) : ℤ))) ∧
    (∀ (t0 : ℤ × ℤ) (ps : List (ℤ × ℤ)) (i : ℕ), i < ps.length →
      (stitchTransforms t0 ps).getD (i + 1) (0, 0) =
        (((stitchTransforms t0 ps).getD i (0, 0)).1 + (ps.getD i (0, 0)).1,
         ((stitchTransforms t0 ps).getD i (0, 0)).2 + (ps.getD i (0, 0)).2)) ∧
    (∀ t0 : ℤ × ℤ,
      (stitchTransforms t0 [(10, 0), (8, 0), (12, 0)]).getD 3 (0, 0) =
        (t0.1 + 30, t0.2)) := by
  refine ⟨?_, ?_, ?_⟩
  · intro canvasRows frameRows ps
    rw [stitchTransforms_head]
    rfl
  · intro t0 ps i h
    exact stitchTransforms_step ps t0 i h
  · intro t0
    simp only [stitchTransforms, List.getD_cons_succ, List.getD_cons_zero]
    rw [Prod.ext_iff]
    simp only [Prod.fst, Prod.snd]
    omega

/-- Claim C4 (confirmed): in projectSpherical and projectCylindrical, a
destination pixel whose inverse-mapping direction has a depth component dirZ
close to 0 (nonzero, and small against the focal length and image extent)
yields sample coordinates outside the bounds check, so the pixel is skipped
and keeps its initialized zero value; moreover every output pixel of the
bounds-guarded write is either the zero value or a copied source pixel, so
no Inf/NaN or otherwise invalid pixel data is ever written.  The rational
parameters sinQ and cosQ stand for the library sin and cos and are only
assumed to satisfy the Pythagorean identity. -/
theorem project_degenerate_dirZ_skipped (sinQ cosQ : ℚ → ℚ) (f : ℚ)
    (nRows nCols : ℕ) (I : ℕ → ℕ → ℕ × ℕ × ℕ) (x y : ℕ)
    (hPyth : ∀ t : ℚ, sinQ t ^ 2 + cosQ t ^ 2 = 1) :
    (0 < |(sphericalDir sinQ cosQ f ((nCols / 2 : ℕ) : ℤ) ((nRows / 2 : ℕ) : ℤ) x y).2.2| →
     |(sphericalDir sinQ cosQ f ((nCols / 2 : ℕ) : ℤ) ((nRows / 2 : ℕ) : ℤ) x y).2.2| ≤ 1 / 2 →
     2 * (((max nRows nCols : ℕ) : ℚ) + |((((nCols / 2 : ℕ) : ℤ)) : ℚ)| +
         |((((nRows / 2 : ℕ) : ℤ)) : ℚ)| + 1) *
       |(sphericalDir sinQ cosQ f ((nCols / 2 : ℕ) : ℤ) ((nRows / 2 : ℕ) : ℤ) x y).2.2| ≤ f →
     projectSpherical sinQ cosQ f nRows nCols I y x = (0, 0, 0)) ∧
    (0 < |(cylindricalDir sinQ cosQ f ((nCols / 2 : ℕ) : ℤ) ((nRows / 2 : ℕ) : ℤ) x y).2.2| →
     |(cylindricalDir sinQ cosQ f ((nCols / 2 : ℕ) : ℤ) ((nRows / 2 : ℕ) : ℤ) x y).2.2| ≤ 1 / 2 →
     2 * (((max nRows nCols : ℕ) : ℚ) + |((((nCols / 2 : ℕ) : ℤ)) : ℚ)| +
         |((((nRows / 2 : ℕ) : ℤ)) : ℚ)| + 1) *
       |(cylindricalDir sinQ cosQ f ((nCols / 2 : ℕ) : ℤ) ((nRows / 2 : ℕ) : ℤ) x y).2.2| ≤ f →
     projectCylindrical sinQ cosQ f nRows nCols I y x = (0, 0, 0)) ∧
    (∀ s : ℤ × ℤ, projectPixel nRows nCols I s = (0, 0, 0) ∨
      ∃ yy xx : ℕ, projectPixel nRows nCols I s = I yy xx) := by
  have hds : sphericalDir sinQ cosQ f ((nCols / 2 : ℕ) : ℤ) ((nRows / 2 : ℕ) : ℤ) x y =
      (sinQ (((x : ℚ) - ((((nCols / 2 : ℕ) : ℤ)) : ℚ)) / f) *
         cosQ (((y : ℚ) - ((((nRows / 2 : ℕ) : ℤ)) : ℚ)) / f),
       sinQ (((y : ℚ) - ((((nRows / 2 : ℕ) : ℤ)) : ℚ)) / f),
       cosQ (((x : ℚ) - ((((nCols / 2 : ℕ) : ℤ)) : ℚ)) / f) *
         cosQ (((y : ℚ) - ((((nRows / 2 : ℕ) : ℤ)) : ℚ)) / f)) := rfl
  have hdc : cylindricalDir sinQ cosQ f ((nCols / 2 : ℕ) : ℤ) ((nRows / 2 : ℕ) : ℤ) x y =
      (sinQ (((x : ℚ) - ((((nCols / 2 : ℕ) : ℤ)) : ℚ)) / f),
       ((y : ℚ) - ((((nRows / 2 : ℕ) : ℤ)) : ℚ)) / f,
       cosQ (((x : ℚ) - ((((nCols / 2 : ℕ) : ℤ)) : ℚ)) / f)) := rfl
  refine ⟨?_, ?_, ?_⟩
  · intro h0 hhalf hf
    rw [hds] at h0 hhalf hf
    unfold projectSpherical
    rw [hds]
    apply sample_out_of_bounds nRows nCols _ _ f _ _ _ I _ h0 hhalf hf
    have hth := hPyth (((x : ℚ) - ((((nCols / 2 : ℕ) : ℤ)) : ℚ)) / f)
    have hph := hPyth (((y : ℚ) - ((((nRows / 2 : ℕ) : ℤ)) : ℚ)) / f)
    nlinarith [hth, hph, sq_nonneg (cosQ (((y : ℚ) - ((((nRows / 2 : ℕ) : ℤ)) : ℚ)) / f))]
  · intro h0 hhalf hf
    rw [hdc] at h0 hhalf hf
    unfold projectCylindrical
    rw [hdc]
    apply sample_out_of_bounds nRows nCols _ _ f _ _ _ I _ h0 hhalf hf
    have hth := hPyth (((x : ℚ) - ((((nCols / 2 : ℕ) : ℤ)) : ℚ)) / f)
    nlinarith [hth, sq_nonneg (((y : ℚ) - ((((nRows / 2 : ℕ) : ℤ)) : ℚ)) / f)]
  · intro s
    unfold projectPixel
    split
    · right
      exact ⟨s.2.toNat, s.1.toNat, rfl⟩
    · left
      rfl

theorem project_degenerate_dirZ_skipped_witness :
    projectSpherical (fun _ => 24 / 25) (fun _ => 7 / 25) 2 1 1
        (fun _ _ => (7, 7, 7)) 0 0 = (0, 0, 0) ∧
    projectCylindrical (fun _ => 24 / 25) (fun _ => 7 / 25) 2 1 1
        (fun _ _ => (7, 7, 7)) 0 0 = (0, 0, 0) :=
  ⟨(project_degenerate_dirZ_skipped (fun _ => 24 / 25) (fun _ => 7 / 25) 2 1 1
      (fun _ _ => (7, 7, 7)) 0 0 (by intro t; norm_num)).1
      (by norm_num [sphericalDir]) (by norm_num [sphericalDir, abs_of_pos])
      (by norm_num [sphericalDir, abs_of_pos]),
   (project_degenerate_dirZ_skipped (fun _ => 24 / 25) (fun _ => 7 / 25) 2 1 1
      (fun _ _ => (7, 7, 7)) 0 0 (by intro t; norm_num)).2.1
      (by norm_num [cylindricalDir]) (by norm_num [cylindricalDir, abs_of_pos])
      (by norm_num [cylindricalDir, abs_of_pos])⟩

theorem stitch_transform_accumulation_witness :
    (0 : ℕ) < List.length [((1 : ℤ), (2 : ℤ))] ∧
    (stitchTransforms ((5 : ℤ), (6 : ℤ)) [(1, 2)]).getD 1 (0, 0) =
      (((stitchTransforms ((5 : ℤ), (6 : ℤ)) [(1, 2)]).getD 0 (0, 0)).1 +
          (([((1 : ℤ), (2 : ℤ))] : List (ℤ × ℤ)).getD 0 (0, 0)).1,
       ((stitchTransforms ((5 : ℤ), (6 : ℤ)) [(1, 2)]).getD 0 (0, 0)).2 +
          (([((1 : ℤ), (2 : ℤ))] : List (ℤ × ℤ)).getD 0 (0, 0)).2) :=
  ⟨by decide, stitch_transform_accumulation.2.1 (5, 6) [(1, 2)] 0 (by decide)⟩

end RadialStitcher
